import Mathlib

/-!
# Verification of the `deet` debugger core (`src/proj-1/deet`)

Shallow embedding of `inferior.rs` and `debugger.rs`: breakpoint
installation via read-modify-write word patching, the continue/step
trap-handling state machine of `Inferior::cont`, process start-up
(`Inferior::new`), stack unwinding (`Inferior::print_backtrace`) and the
session-level `Debugger::cont` dispatch.

Machine integers are modelled as `Nat` with explicit `2^64` bounds where
overflow matters; the external `ptrace`/`waitpid` behaviour of the traced
child is modelled by an explicit oracle describing the outcome of each
resume, and target memory is a function from addresses to the 64-bit word
that `ptrace::read` would return there.
-/

namespace Deet

/-- `size_of::<usize>()` on the x86-64 target. -/
def wordSize : Nat := 8

/-- `2^64`, the modulus of `usize`/`u64` arithmetic. -/
def U64_MOD : Nat := 2 ^ 64

/-- Rust `!x` on `u64`: bitwise complement within 64 bits,
i.e. xor with the all-ones word. -/
def u64_not (x : Nat) : Nat := x ^^^ (U64_MOD - 1)

/-- `fn align_addr_to_word(addr: usize) -> usize { addr & (-(size_of::<usize>() as isize) as usize) }`:
on a 64-bit target `-(8 as isize) as usize` is `2^64 - 8`. -/
def align_addr_to_word (addr : Nat) : Nat := addr &&& (U64_MOD - wordSize)

/-- Line 180 of `inferior.rs`: `let orig_byte = (word >> 8 * byte_offset) & 0xff;`. -/
def extract_byte (word off : Nat) : Nat := (word >>> (8 * off)) &&& 0xff

/-- Lines 181-182 of `inferior.rs`:
`let masked_word = word & !(0xff << 8 * byte_offset);`
`let updated_word = masked_word | ((val as u64) << 8 * byte_offset);`. -/
def patch_byte (word off val : Nat) : Nat :=
  (word &&& u64_not (0xff <<< (8 * off))) ||| (val <<< (8 * off))

/-! ## Bit-level lemmas about the word patching core -/

theorem extract_byte_eq_mod (word off : Nat) :
    extract_byte word off = (word >>> (8 * off)) % 256 := by
  unfold extract_byte
  apply Nat.eq_of_testBit_eq
  intro i
  simp only [show (0xff : Nat) = 2 ^ 8 - 1 from rfl, show (256 : Nat) = 2 ^ 8 from rfl,
    Nat.testBit_land, Nat.testBit_mod_two_pow, Nat.testBit_two_pow_sub_one]
  exact Bool.and_comm _ _

theorem extract_byte_lt (word off : Nat) : extract_byte word off < 256 := by
  rw [extract_byte_eq_mod]
  exact Nat.mod_lt _ (by norm_num)

/-- Bit `i` of the patched word: inside the target byte it comes from `val`,
outside it comes from the original word truncated to 64 bits. -/
theorem testBit_patch_byte (word off val i : Nat) (hoff : off < 8) (hval : val < 256) :
    (patch_byte word off val).testBit i =
      if 8 * off ≤ i ∧ i < 8 * off + 8 then val.testBit (i - 8 * off)
      else (word.testBit i && decide (i < 64)) := by
  have h255 : (0xff : Nat) = 2 ^ 8 - 1 := rfl
  have h64 : (U64_MOD - 1 : Nat) = 2 ^ 64 - 1 := rfl
  unfold patch_byte u64_not
  rw [Nat.testBit_lor, Nat.testBit_land, Nat.testBit_xor, Nat.testBit_shiftLeft,
    Nat.testBit_shiftLeft, h255, h64, Nat.testBit_two_pow_sub_one,
    Nat.testBit_two_pow_sub_one]
  by_cases h1 : 8 * off ≤ i
  · by_cases h2 : i < 8 * off + 8
    · have hi64 : i < 64 := by omega
      simp [h1, h2, hi64, show i - 8 * off < 8 by omega]
    · have hvb : val.testBit (i - 8 * off) = false := by
        apply Nat.testBit_lt_two_pow
        calc val < 256 := hval
        _ = 2 ^ 8 := by norm_num
        _ ≤ 2 ^ (i - 8 * off) := Nat.pow_le_pow_right (by norm_num) (by omega)
      by_cases hi64 : i < 64 <;>
        simp [h1, h2, hi64, show ¬ i - 8 * off < 8 by omega, hvb]
  · have h2 : ¬ (8 * off ≤ i ∧ i < 8 * off + 8) := by omega
    have hi64 : i < 64 := by omega
    simp [h1, h2, hi64]

/-- Reading back the byte just patched yields the written value. -/
theorem extract_patch_byte_self (word off val : Nat) (hoff : off < 8) (hval : val < 256) :
    extract_byte (patch_byte word off val) off = val := by
  apply Nat.eq_of_testBit_eq
  intro i
  unfold extract_byte
  rw [show (0xff : Nat) = 2 ^ 8 - 1 from rfl, Nat.testBit_land, Nat.testBit_shiftRight,
    Nat.testBit_two_pow_sub_one, testBit_patch_byte _ _ _ _ hoff hval]
  by_cases hi : i < 8
  · simp [hi, show 8 * off ≤ 8 * off + i ∧ 8 * off + i < 8 * off + 8 by omega,
      show 8 * off + i - 8 * off = i by omega]
  · have hvb : val.testBit i = false := by
      apply Nat.testBit_lt_two_pow
      calc val < 256 := hval
      _ = 2 ^ 8 := by norm_num
      _ ≤ 2 ^ i := Nat.pow_le_pow_right (by norm_num) (by omega)
    simp [hi, hvb]

/-- Patching one byte leaves every other byte of the word unchanged. -/
theorem extract_patch_byte_other (word off val j : Nat) (hoff : off < 8) (hj : j < 8)
    (hne : j ≠ off) (hval : val < 256) :
    extract_byte (patch_byte word off val) j = extract_byte word j := by
  apply Nat.eq_of_testBit_eq
  intro i
  unfold extract_byte
  simp only [show (0xff : Nat) = 2 ^ 8 - 1 from rfl, Nat.testBit_land,
    Nat.testBit_shiftRight, Nat.testBit_two_pow_sub_one]
  rw [testBit_patch_byte _ _ _ _ hoff hval]
  by_cases hi : i < 8
  · have hout : ¬ (8 * off ≤ 8 * j + i ∧ 8 * j + i < 8 * off + 8) := by omega
    have hi64 : 8 * j + i < 64 := by omega
    simp [hi, hout, hi64]
  · simp [hi]

/-- Patching the byte value already present does not change the word. -/
theorem patch_byte_id (word off : Nat) (hw : word < U64_MOD) (hoff : off < 8) :
    patch_byte word off (extract_byte word off) = word := by
  apply Nat.eq_of_testBit_eq
  intro i
  rw [testBit_patch_byte _ _ _ _ hoff (extract_byte_lt word off)]
  by_cases hin : 8 * off ≤ i ∧ i < 8 * off + 8
  · unfold extract_byte
    rw [show (0xff : Nat) = 2 ^ 8 - 1 from rfl, Nat.testBit_land, Nat.testBit_shiftRight,
      Nat.testBit_two_pow_sub_one]
    simp [hin, show 8 * off + (i - 8 * off) = i by omega, show i - 8 * off < 8 by omega]
  · by_cases hi64 : i < 64
    · simp [hin, hi64]
    · have : word.testBit i = false := by
        apply Nat.testBit_lt_two_pow
        calc word < U64_MOD := hw
        _ = 2 ^ 64 := rfl
        _ ≤ 2 ^ i := Nat.pow_le_pow_right (by norm_num) (by omega)
      simp [hin, hi64, this]

/-- Round trip: patching a byte and then patching back the byte that was
extracted beforehand restores the original word exactly. -/
theorem patch_byte_roundtrip (word off val : Nat) (hw : word < U64_MOD) (hoff : off < 8)
    (hval : val < 256) :
    patch_byte (patch_byte word off val) off (extract_byte word off) = word := by
  apply Nat.eq_of_testBit_eq
  intro i
  rw [testBit_patch_byte _ _ _ _ hoff (extract_byte_lt word off)]
  by_cases hin : 8 * off ≤ i ∧ i < 8 * off + 8
  · unfold extract_byte
    rw [show (0xff : Nat) = 2 ^ 8 - 1 from rfl, Nat.testBit_land, Nat.testBit_shiftRight,
      Nat.testBit_two_pow_sub_one]
    simp [hin, show 8 * off + (i - 8 * off) = i by omega, show i - 8 * off < 8 by omega]
  · rw [testBit_patch_byte _ _ _ _ hoff hval]
    by_cases hi64 : i < 64
    · simp [hin, hi64]
    · have : word.testBit i = false := by
        apply Nat.testBit_lt_two_pow
        calc word < U64_MOD := hw
        _ = 2 ^ 64 := rfl
        _ ≤ 2 ^ i := Nat.pow_le_pow_right (by norm_num) (by omega)
      simp [hin, hi64, this]

theorem shiftLeft_byte_lt (v off : Nat) (hoff : off < 8) (hv : v < 256) :
    v <<< (8 * off) < U64_MOD := by
  unfold U64_MOD
  rw [Nat.shiftLeft_eq]
  calc v * 2 ^ (8 * off) < 256 * 2 ^ (8 * off) :=
        mul_lt_mul_of_pos_right hv (by positivity)
  _ ≤ 256 * 2 ^ 56 :=
        Nat.mul_le_mul (Nat.le_refl 256) (Nat.pow_le_pow_right (by norm_num) (by omega))
  _ = 2 ^ 64 := by norm_num

theorem u64_not_lt (x : Nat) (hx : x < U64_MOD) : u64_not x < U64_MOD :=
  Nat.xor_lt_two_pow hx (Nat.sub_lt (by unfold U64_MOD; positivity) one_pos)

/-- The patched word stays a 64-bit value. -/
theorem patch_byte_lt (word off val : Nat) (hoff : off < 8) (hval : val < 256) :
    patch_byte word off val < U64_MOD := by
  unfold patch_byte
  have h1 : word &&& u64_not (0xff <<< (8 * off)) < U64_MOD :=
    lt_of_le_of_lt Nat.and_le_right
      (u64_not_lt _ (shiftLeft_byte_lt 0xff off hoff (by norm_num)))
  have h2 : val <<< (8 * off) < U64_MOD := shiftLeft_byte_lt val off hoff hval
  exact Nat.or_lt_two_pow h1 h2

/-! ## Alignment lemmas -/

theorem align_addr_to_word_eq (addr : Nat) (h : addr < U64_MOD) :
    align_addr_to_word addr = 8 * (addr / 8) := by
  apply Nat.eq_of_testBit_eq
  intro i
  unfold align_addr_to_word wordSize U64_MOD
  have hmask : (2 ^ 64 - 8 : Nat) = (2 ^ 61 - 1) <<< 3 := by
    rw [Nat.shiftLeft_eq]
    norm_num
  have hdiv : 8 * (addr / 8) = (addr >>> 3) <<< 3 := by
    rw [Nat.shiftRight_eq_div_pow, Nat.shiftLeft_eq]
    ring_nf
  rw [hmask, hdiv, Nat.testBit_land, Nat.testBit_shiftLeft, Nat.testBit_shiftLeft,
    Nat.testBit_two_pow_sub_one, Nat.testBit_shiftRight]
  by_cases h3 : 3 ≤ i
  · by_cases h61 : i - 3 < 61
    · simp [h3, h61, show 3 + (i - 3) = i by omega]
    · have : addr.testBit i = false := by
        apply Nat.testBit_lt_two_pow
        calc addr < 2 ^ 64 := h
        _ ≤ 2 ^ i := Nat.pow_le_pow_right (by norm_num) (by omega)
      simp [h3, h61, this]
  · simp [h3]

theorem byte_offset_eq (addr : Nat) (h : addr < U64_MOD) :
    addr - align_addr_to_word addr = addr % 8 := by
  rw [align_addr_to_word_eq addr h]
  omega

theorem byte_offset_lt (addr : Nat) (h : addr < U64_MOD) :
    addr - align_addr_to_word addr < 8 := by
  rw [byte_offset_eq addr h]
  omega

theorem align_addr_le (addr : Nat) (h : addr < U64_MOD) :
    align_addr_to_word addr ≤ addr := by
  rw [align_addr_to_word_eq addr h]
  omega

/-! ## Data model: breakpoints, stop reasons, tracee state -/

/-- `struct Breakpoint { addr: usize, orig_byte: u8 }`. -/
structure Breakpoint where
  addr : Nat
  orig_byte : Nat
deriving Repr, DecidableEq

/-- `pub enum Status` of `inferior.rs`. -/
inductive Status where
  | stopped (sig : Nat) (rip : Nat)
  | exited (code : Int)
  | signaled (sig : Nat)
deriving Repr, DecidableEq

/-- An OS-level `nix::Error` as surfaced by a failed ptrace/wait call; the
claims only depend on failure itself, so a single error value suffices
(`ESRCH`, the error a ptrace call on a dead or reaped process returns). -/
inductive NixErr where
  | eSRCH
deriving Repr, DecidableEq

/-- Register file and memory of the live traced child: `mem a` is the word
`ptrace::read` returns at address `a`, `rip`/`rbp` are the registers
`ptrace::getregs` returns. -/
structure TraceeState where
  mem : Nat → Nat
  rip : Nat
  rbp : Nat

/-- `ptrace::write(pid, addr, w)`: subsequent reads at `addr` see `w`. -/
def TraceeState.writeWord (t : TraceeState) (addr w : Nat) : TraceeState :=
  { t with mem := fun a => if a = addr then w else t.mem a }

/-- What running the resumed child until the next `waitpid(pid, None)` return
yields: a stop (with the child's new state), normal exit, death by signal, or
a `waitpid` failure (child state unchanged by the failed wait itself). -/
inductive RunOutcome where
  | runStopped (sig : Nat) (t : TraceeState)
  | runExited (code : Int)
  | runSignaled (sig : Nat)
  | waitErr (e : NixErr) (t : TraceeState)

/-- Execution oracle: the outcome of `ptrace::step` + `waitpid`, and of
`ptrace::cont` + `waitpid`, as a function of the tracee state at the moment
the resume is issued. All theorems quantify over this oracle. -/
structure RunOracle where
  stepRun : TraceeState → RunOutcome
  contRun : TraceeState → RunOutcome

/-- `pub struct Inferior { child: Child, break_map: HashMap<usize, Breakpoint> }`.
`proc = none` models a child that has terminated and been reaped, on which
every ptrace call fails. -/
structure Inferior where
  proc : Option TraceeState
  break_map : Nat → Option Breakpoint

/-! ## `Inferior::write_byte` and `Inferior::add_breakpoint` (lines 171-194) -/

/-- `fn write_byte(&mut self, addr: usize, val: u8) -> Result<u8, nix::Error>`:
read the aligned word, extract the original byte, patch in `val`, write the
word back, record the breakpoint in the map, return the original byte.
On a dead child the initial `ptrace::read` fails. -/
def Inferior.write_byte (inf : Inferior) (addr val : Nat) :
    (Except NixErr Nat) × Inferior :=
  match inf.proc with
  | none => (.error .eSRCH, inf)
  | some t =>
    let aligned_addr := align_addr_to_word addr
    let byte_offset := addr - aligned_addr
    let word := t.mem aligned_addr
    let orig_byte := extract_byte word byte_offset
    let updated_word := patch_byte word byte_offset val
    let t' := t.writeWord aligned_addr updated_word
    (.ok orig_byte,
     { proc := some t',
       break_map := fun a =>
         if a = addr then some ⟨addr, orig_byte⟩ else inf.break_map a })

/-- `pub fn add_breakpoint(&mut self, addr: usize) -> Result<u8, nix::Error>`:
`self.write_byte(addr, 0xcc)` (0xcc causes SIGTRAP). -/
def Inferior.add_breakpoint (inf : Inferior) (addr : Nat) :
    (Except NixErr Nat) × Inferior :=
  inf.write_byte addr 0xcc

/-- The single byte of target memory at `addr`, read the way `write_byte`
reads it: the byte at `addr - align_addr_to_word addr` within the aligned
word containing `addr`. -/
def memByte (mem : Nat → Nat) (addr : Nat) : Nat :=
  extract_byte (mem (align_addr_to_word addr)) (addr - align_addr_to_word addr)

/-! ## `Inferior::cont` (lines 96-134)

The function is split following its control flow: `contPost` is lines
123-133 (the post-wait breakpoint rewind), `contResume` is lines 119-133
(`ptrace::cont`, `wait`, then `contPost`), and `cont` is the whole body
including the pre-resume step-over branch of lines 100-117. -/

/-- Lines 123-133 of `inferior.rs`: read the registers (`?`, fails on a dead
child — this is why a normal exit is reported as an error), and if `rip - 1`
is a known breakpoint, restore its original byte via `write_byte` and rewind
`rip` by one via `setregs`; finally return the `result` saved by line 120. -/
def Inferior.contPost (inf : Inferior) (result : Except NixErr Status) :
    (Except NixErr Status) × Inferior :=
  match inf.proc with
  | none => (.error .eSRCH, inf)
  | some t =>
    match inf.break_map (t.rip - 1) with
    | some breakpoint =>
      let inf2 := (inf.write_byte breakpoint.addr breakpoint.orig_byte).2
      (result,
       { inf2 with proc := inf2.proc.map fun t2 => { t2 with rip := t.rip - 1 } })
    | none => (result, inf)

/-- Lines 119-133 of `inferior.rs`: `ptrace::cont(pid, None)?` (fails on a
dead child), `let result = self.wait(None)`, then the post-wait handling. -/
def Inferior.contResume (o : RunOracle) (inf : Inferior) :
    (Except NixErr Status) × Inferior :=
  match inf.proc with
  | none => (.error .eSRCH, inf)
  | some t =>
    match o.contRun t with
    | .runStopped sig t' =>
        Inferior.contPost { inf with proc := some t' } (.ok (.stopped sig t'.rip))
    | .runExited _ => (.error .eSRCH, { inf with proc := none })
    | .runSignaled _ => (.error .eSRCH, { inf with proc := none })
    | .waitErr e t' => Inferior.contPost { inf with proc := some t' } (.error e)

/-- `pub fn cont(&mut self) -> Result<Status, nix::Error>` (lines 96-134):
read `rip` (`?`); if `rip - 1` is in the breakpoint map, single-step, wait
(returning immediately on termination or wait error), and on a stop write the
trap byte `0xcc` back at `rip` (the entry value, not `rip - 1`); then issue
the external continue and handle the resulting stop. -/
def Inferior.cont (o : RunOracle) (inf : Inferior) :
    (Except NixErr Status) × Inferior :=
  match inf.proc with
  | none => (.error .eSRCH, inf)
  | some t0 =>
    let rip := t0.rip
    if (inf.break_map (rip - 1)).isSome then
      match o.stepRun t0 with
      | .runStopped _ t1 =>
          Inferior.contResume o (Inferior.write_byte { inf with proc := some t1 } rip 0xcc).2
      | .runExited c => (.ok (.exited c), { inf with proc := none })
      | .runSignaled s => (.ok (.signaled s), { inf with proc := none })
      | .waitErr e t1 => (.error e, { inf with proc := some t1 })
    else
      Inferior.contResume o inf

/-! ## `Inferior::new` (lines 52-75) -/

/-- Outcome of `Command::spawn` for the target child. -/
inductive SpawnResult where
  | spawnFail
  | spawnOk (t : TraceeState)

/-- Outcome of the initial `waitpid(child, WNOHANG)`: stopped by the
trace-enable signal, any other wait status (exit, signal, still-alive), or a
`waitpid` error. -/
inductive InitWaitStatus where
  | wsStopped (sig : Nat)
  | wsOther
  | wsErr

/-- `pub fn new(target, args, breakpoints) -> Option<Inferior>`: `None` if the
spawn fails or the initial wait is not `WaitStatus::Stopped`; otherwise
install every supplied breakpoint (results ignored) and return the inferior. -/
def Inferior.new (spawn : SpawnResult) (initw : InitWaitStatus)
    (breakpoints : List Nat) : Option Inferior :=
  match spawn with
  | .spawnFail => none
  | .spawnOk t =>
    match initw with
    | .wsStopped _ =>
        some (breakpoints.foldl (fun inf b => (inf.add_breakpoint b).2)
          { proc := some t, break_map := fun _ => none })
    | .wsOther => none
    | .wsErr => none

/-! ## `Inferior::print_backtrace` (lines 154-169) -/

/-- A source line as returned by the DWARF collaborator. -/
structure Line where
  file : String
  number : Nat
deriving Repr, DecidableEq

/-- One emitted backtrace frame: `println!("{} ({}:{})", func_name, line.file,
line.number)`. -/
structure Frame where
  func : String
  file : String
  number : Nat
deriving Repr, DecidableEq

/-- The read-only symbol collaborator (`DwarfData`), at the interface
consumed by `inferior.rs`. -/
structure DwarfData where
  get_line_from_addr : Nat → Option Line
  get_function_from_addr : Nat → Option String

/-- The function name at which the unwinding loop of `print_backtrace`
stops: the literal `"main"` of line 162. -/
def entryFunctionName : String := "main"

/-- The frame-emitting loop of `print_backtrace` with explicit fuel; `none`
models a panicking `unwrap` on a failed symbol lookup or a loop that does not
terminate within the fuel. Each iteration resolves `rip`, emits the frame,
stops after the entry-function frame, and otherwise continues with the return
address read at `rbp + 8` and the saved frame pointer read at `rbp`. -/
def backtraceFrames (dd : DwarfData) (mem : Nat → Nat) :
    Nat → Nat → Nat → Option (List Frame)
  | 0, _, _ => none
  | fuel + 1, rip, rbp =>
    match dd.get_line_from_addr rip, dd.get_function_from_addr rip with
    | some line, some func_name =>
      if func_name = entryFunctionName then
        some [⟨func_name, line.file, line.number⟩]
      else
        (backtraceFrames dd mem fuel (mem (rbp + 8)) (mem rbp)).map
          fun rest => ⟨func_name, line.file, line.number⟩ :: rest
    | _, _ => none

/-- `pub fn print_backtrace(&self, debug_data) -> Result<(), nix::Error>`,
returning the list of frames printed (on a dead child `getregs` fails). -/
def Inferior.print_backtrace (inf : Inferior) (dd : DwarfData) (fuel : Nat) :
    Option (List Frame) :=
  match inf.proc with
  | none => none
  | some t => backtraceFrames dd t.mem fuel t.rip t.rbp

/-! ## `Debugger` session controller (`debugger.rs`) -/

/-- What `Debugger::cont` prints for the user: an error line, a stop report,
an exit report, nothing (the `_ => ()` arm for `Signaled`), or
"The inferior is not running!". -/
inductive Report where
  | reportError (e : NixErr)
  | reportStopped (sig : Nat) (rip : Nat)
  | reportExited (code : Int)
  | reportNone
  | reportNotRunning
deriving Repr, DecidableEq

/-- The session fields the claims touch: the at-most-one current inferior and
the persisted breakpoint-address list. -/
structure DebuggerS where
  inferior : Option Inferior
  breakpoints : List Nat

/-- `Debugger::kill` (lines 75-86): kill and reap the child if one exists.
Note it never sets `self.inferior` back to `None`. -/
def DebuggerS.kill (d : DebuggerS) : DebuggerS :=
  match d.inferior with
  | some inf => { d with inferior := some { inf with proc := none } }
  | none => d

/-- `Debugger::cont` (lines 51-73): dispatch on the presence of an inferior
and on the result of `Inferior::cont`. -/
def DebuggerS.cont (o : RunOracle) (d : DebuggerS) : Report × DebuggerS :=
  match d.inferior with
  | none => (.reportNotRunning, d)
  | some inf =>
    match Inferior.cont o inf with
    | (.error e, inf') => (.reportError e, { d with inferior := some inf' })
    | (.ok (.stopped sig rip), inf') =>
        (.reportStopped sig rip, { d with inferior := some inf' })
    | (.ok (.exited c), inf') =>
        (.reportExited c, DebuggerS.kill { d with inferior := some inf' })
    | (.ok (.signaled _), inf') => (.reportNone, { d with inferior := some inf' })

/-- `Debugger::add_breakpoint` (lines 106-113): record the address in the
persisted list and, if an inferior is live, install it immediately. -/
def DebuggerS.add_breakpoint (d : DebuggerS) (addr : Nat) : DebuggerS :=
  let d1 : DebuggerS := { d with breakpoints := d.breakpoints ++ [addr] }
  match d1.inferior with
  | some inf => { d1 with inferior := some (inf.add_breakpoint addr).2 }
  | none => d1

/-! ## Helper lemmas about `write_byte` -/

/-- Characterisation of `write_byte` on a live child. -/
theorem write_byte_alive (inf : Inferior) (t : TraceeState) (addr val : Nat)
    (hproc : inf.proc = some t) :
    inf.write_byte addr val =
      (.ok (memByte t.mem addr),
       { proc := some (t.writeWord (align_addr_to_word addr)
           (patch_byte (t.mem (align_addr_to_word addr))
             (addr - align_addr_to_word addr) val)),
         break_map := fun a =>
           if a = addr then some ⟨addr, memByte t.mem addr⟩
           else inf.break_map a }) := by
  simp only [Inferior.write_byte, hproc, memByte]

/-- The byte written by `write_byte` is the byte subsequently read at that
address, and all other bytes of memory are untouched. -/
theorem write_byte_mem_spec (inf : Inferior) (t : TraceeState) (addr val : Nat)
    (hproc : inf.proc = some t) (haddr : addr < U64_MOD) (hval : val < 256) :
    ∃ t', (inf.write_byte addr val).2.proc = some t' ∧
      t'.rip = t.rip ∧ t'.rbp = t.rbp ∧
      memByte t'.mem addr = val ∧
      (∀ a', a' < U64_MOD → a' ≠ addr → memByte t'.mem a' = memByte t.mem a') ∧
      (∀ w, w ≠ align_addr_to_word addr → t'.mem w = t.mem w) := by
  rw [write_byte_alive inf t addr val hproc]
  refine ⟨_, rfl, rfl, rfl, ?_, ?_, ?_⟩
  · unfold memByte TraceeState.writeWord
    simp only [if_pos rfl]
    exact extract_patch_byte_self _ _ _ (byte_offset_lt addr haddr) hval
  · intro a' ha' hne
    unfold memByte TraceeState.writeWord
    by_cases hal : align_addr_to_word a' = align_addr_to_word addr
    · have h1 := align_addr_to_word_eq a' ha'
      have h2 := align_addr_to_word_eq addr haddr
      have hal' : 8 * (a' / 8) = 8 * (addr / 8) := by rw [← h1, ← h2]; exact hal
      have hoff : a' - align_addr_to_word addr ≠ addr - align_addr_to_word addr := by
        rw [h2]; omega
      have hjlt : a' - align_addr_to_word addr < 8 := by
        rw [h2]; omega
      rw [hal]
      dsimp only
      rw [if_pos rfl]
      exact extract_patch_byte_other _ _ _ _ (byte_offset_lt addr haddr) hjlt hoff hval
    · simp only [if_neg hal]
  · intro w hw
    unfold TraceeState.writeWord
    simp only [if_neg hw]

/-- C4 concrete test state: a live child with a constant memory image. -/
def c4T : TraceeState := ⟨fun _ => 0x1122334455667788, 0x5555, 0x7000⟩

def c4Inf : Inferior := ⟨some c4T, fun _ => none⟩

/-- **C4.** For every address `a` at which install-breakpoint succeeds,
immediately after installation the byte at `a` in target memory equals the
trap opcode `0xcc`, every other byte of the aligned word containing `a` (and
every other word of memory) is unchanged, and the breakpoint record for `a`
stores as original byte exactly the byte that was at `a` before
installation. -/
theorem add_breakpoint_installs_trap (inf : Inferior) (t : TraceeState) (addr : Nat)
    (hproc : inf.proc = some t) (haddr : addr < U64_MOD) :
    ((inf.add_breakpoint addr).1 = .ok (memByte t.mem addr)) ∧
    ((inf.add_breakpoint addr).2.break_map addr = some ⟨addr, memByte t.mem addr⟩) ∧
    ∃ t', (inf.add_breakpoint addr).2.proc = some t' ∧
      memByte t'.mem addr = 0xcc ∧
      (∀ a', a' < U64_MOD → a' ≠ addr → memByte t'.mem a' = memByte t.mem a') ∧
      (∀ w, w ≠ align_addr_to_word addr → t'.mem w = t.mem w) := by
  obtain ⟨t', h1, _, _, h2, h3, h4⟩ :=
    write_byte_mem_spec inf t addr 0xcc hproc haddr (by norm_num)
  refine ⟨?_, ?_, t', h1, h2, h3, h4⟩
  · unfold Inferior.add_breakpoint
    rw [write_byte_alive inf t addr 0xcc hproc]
  · unfold Inferior.add_breakpoint
    rw [write_byte_alive inf t addr 0xcc hproc]
    simp

theorem add_breakpoint_installs_trap_witness :
    ((c4Inf.add_breakpoint 0x1003).1 = .ok (memByte c4T.mem 0x1003)) ∧
    ((c4Inf.add_breakpoint 0x1003).2.break_map 0x1003 =
      some ⟨0x1003, memByte c4T.mem 0x1003⟩) ∧
    ∃ t', (c4Inf.add_breakpoint 0x1003).2.proc = some t' ∧
      memByte t'.mem 0x1003 = 0xcc ∧
      (∀ a', a' < U64_MOD → a' ≠ 0x1003 → memByte t'.mem a' = memByte c4T.mem a') ∧
      (∀ w, w ≠ align_addr_to_word 0x1003 → t'.mem w = c4T.mem w) :=
  add_breakpoint_installs_trap c4Inf c4T 0x1003 rfl (by norm_num [U64_MOD])

theorem writeWord_mem_self (t : TraceeState) (w v : Nat) :
    (t.writeWord w v).mem w = v := by
  unfold TraceeState.writeWord
  simp

theorem writeWord_mem_other (t : TraceeState) (w v a : Nat) (h : a ≠ w) :
    (t.writeWord w v).mem a = t.mem a := by
  unfold TraceeState.writeWord
  simp [h]

/-- **C5.** Round trip: installing the trap byte at `a` and then writing back
the recorded original byte leaves the byte at `a` — in fact all of memory —
identical to its pre-install value, for every address and hence independent
of the byte offset of `a` within its aligned word. -/
theorem install_restore_roundtrip (inf : Inferior) (t : TraceeState) (addr : Nat)
    (hproc : inf.proc = some t) (haddr : addr < U64_MOD)
    (hword : t.mem (align_addr_to_word addr) < U64_MOD) :
    ∃ bp t2,
      (inf.add_breakpoint addr).2.break_map addr = some bp ∧
      ((inf.add_breakpoint addr).2.write_byte bp.addr bp.orig_byte).2.proc = some t2 ∧
      t2.mem = t.mem := by
  have hmap : (inf.add_breakpoint addr).2.break_map addr =
      some ⟨addr, memByte t.mem addr⟩ := by
    unfold Inferior.add_breakpoint
    rw [write_byte_alive inf t addr 0xcc hproc]
    simp
  have hproc1 : (inf.add_breakpoint addr).2.proc =
      some (t.writeWord (align_addr_to_word addr)
        (patch_byte (t.mem (align_addr_to_word addr))
          (addr - align_addr_to_word addr) 0xcc)) := by
    unfold Inferior.add_breakpoint
    rw [write_byte_alive inf t addr 0xcc hproc]
  refine ⟨⟨addr, memByte t.mem addr⟩, ?_⟩
  rw [show (⟨addr, memByte t.mem addr⟩ : Breakpoint).addr = addr from rfl,
    show (⟨addr, memByte t.mem addr⟩ : Breakpoint).orig_byte = memByte t.mem addr from rfl,
    write_byte_alive _ _ _ _ hproc1]
  refine ⟨_, hmap, rfl, ?_⟩
  funext a
  by_cases ha : a = align_addr_to_word addr
  · subst ha
    rw [writeWord_mem_self, writeWord_mem_self]
    unfold memByte
    exact patch_byte_roundtrip _ _ 0xcc hword (byte_offset_lt addr haddr) (by norm_num)
  · rw [writeWord_mem_other _ _ _ _ ha, writeWord_mem_other _ _ _ _ ha]

theorem install_restore_roundtrip_witness :
    ∃ bp t2,
      (c4Inf.add_breakpoint 0x1003).2.break_map 0x1003 = some bp ∧
      ((c4Inf.add_breakpoint 0x1003).2.write_byte bp.addr bp.orig_byte).2.proc = some t2 ∧
      t2.mem = c4T.mem :=
  install_restore_roundtrip c4Inf c4T 0x1003 rfl (by norm_num [U64_MOD])
    (by norm_num [c4T, U64_MOD])

/-- C10 concrete test state: a live child whose byte at `0x3000` is the trap
opcode, with a stale breakpoint record for that address. -/
def c10T : TraceeState := ⟨fun _ => 0xcc, 0x2000, 0⟩

def c10Inf : Inferior :=
  ⟨some c10T, fun a => if a = 0x3000 then some ⟨0x3000, 0x90⟩ else none⟩

/-- **C10.** Every successful byte write into target memory — installing a
trap byte or restoring an original byte — inserts or overwrites the map
entry keyed by the written address, recording as `orig_byte` the byte that
was in memory just before the write; consequently restoring a breakpoint's
original byte after a trap re-registers that address with the trap opcode
`0xcc` recorded as its "original" byte. -/
theorem write_byte_registers_address (inf : Inferior) (t : TraceeState) (addr val : Nat)
    (hproc : inf.proc = some t) :
    ((inf.write_byte addr val).1 = .ok (memByte t.mem addr)) ∧
    ((inf.write_byte addr val).2.break_map addr = some ⟨addr, memByte t.mem addr⟩) ∧
    (memByte t.mem addr = 0xcc →
      (inf.write_byte addr val).2.break_map addr = some ⟨addr, 0xcc⟩) := by
  rw [write_byte_alive inf t addr val hproc]
  exact ⟨rfl, by simp, fun h => by simp [h]⟩

theorem write_byte_registers_address_witness :
    ((c10Inf.write_byte 0x3000 0x90).1 = .ok (memByte c10T.mem 0x3000)) ∧
    ((c10Inf.write_byte 0x3000 0x90).2.break_map 0x3000 =
      some ⟨0x3000, memByte c10T.mem 0x3000⟩) ∧
    ((c10Inf.write_byte 0x3000 0x90).2.break_map 0x3000 = some ⟨0x3000, 0xcc⟩) :=
  let h := write_byte_registers_address c10Inf c10T 0x3000 0x90 rfl
  ⟨h.1, h.2.1, h.2.2 (by decide)⟩

/-- C6 concrete test state: a live child whose genuine program byte at
`0x1000` is `0x90`. -/
def c6T : TraceeState := ⟨fun _ => 0x90, 0, 0⟩

def c6Inf0 : Inferior := ⟨some c6T, fun _ => none⟩

/-- **C6 counterexample.** Re-installing a breakpoint at an address already
carrying an installed trap byte is not a record-preserving no-op: after the
second install the saved "original" byte is the trap opcode `0xcc`, no
longer the genuine program byte `0x90` saved by the first install. -/
theorem readd_breakpoint_counterexample :
    ((c6Inf0.add_breakpoint 0x1000).2.break_map 0x1000 = some ⟨0x1000, 0x90⟩) ∧
    (((c6Inf0.add_breakpoint 0x1000).2.add_breakpoint 0x1000).2.break_map 0x1000 =
      some ⟨0x1000, 0xcc⟩) ∧
    ¬ (((c6Inf0.add_breakpoint 0x1000).2.add_breakpoint 0x1000).2.break_map 0x1000 =
      some ⟨0x1000, 0x90⟩) := by
  refine ⟨by decide, by decide, by decide⟩

/-- **C6 amended.** Re-installing at an address whose byte is already the trap
opcode leaves target memory unchanged (`0xcc` is rewritten over `0xcc`), but
it does overwrite the breakpoint record for that address, saving the trap
opcode `0xcc` — not the genuine program byte — as the original byte. -/
theorem readd_breakpoint_overwrites_record (inf : Inferior) (t : TraceeState) (addr : Nat)
    (hproc : inf.proc = some t) (haddr : addr < U64_MOD)
    (hword : t.mem (align_addr_to_word addr) < U64_MOD)
    (htrap : memByte t.mem addr = 0xcc) :
    ∃ t', (inf.add_breakpoint addr).2.proc = some t' ∧ t'.mem = t.mem ∧
      (inf.add_breakpoint addr).2.break_map addr = some ⟨addr, 0xcc⟩ := by
  unfold Inferior.add_breakpoint
  rw [write_byte_alive inf t addr 0xcc hproc]
  refine ⟨_, rfl, ?_, by simp [htrap]⟩
  have hpatch : patch_byte (t.mem (align_addr_to_word addr))
      (addr - align_addr_to_word addr) 0xcc = t.mem (align_addr_to_word addr) := by
    unfold memByte at htrap
    rw [← htrap]
    exact patch_byte_id _ _ hword (byte_offset_lt addr haddr)
  funext a
  unfold TraceeState.writeWord
  dsimp only
  by_cases ha : a = align_addr_to_word addr
  · subst ha
    rw [if_pos rfl, hpatch]
  · rw [if_neg ha]

/-- The live state after the first install at `0x1000` in the C6 scenario. -/
def c6T1 : TraceeState :=
  c6T.writeWord (align_addr_to_word 0x1000)
    (patch_byte (c6T.mem (align_addr_to_word 0x1000))
      (0x1000 - align_addr_to_word 0x1000) 0xcc)

theorem readd_breakpoint_overwrites_record_witness :
    ∃ t', ((c6Inf0.add_breakpoint 0x1000).2.add_breakpoint 0x1000).2.proc = some t' ∧
      t'.mem = c6T1.mem ∧
      ((c6Inf0.add_breakpoint 0x1000).2.add_breakpoint 0x1000).2.break_map 0x1000 =
        some ⟨0x1000, 0xcc⟩ :=
  readd_breakpoint_overwrites_record (c6Inf0.add_breakpoint 0x1000).2 c6T1 0x1000
    rfl (by norm_num [U64_MOD]) (by decide) (by decide)

/-- C7 concrete test data: a child stopped one byte past the breakpoint at
`0x1000`, with a single-step oracle that terminates the process. -/
def c7T : TraceeState := ⟨fun _ => 0, 0x1001, 0⟩

def c7Inf : Inferior :=
  ⟨some c7T, fun a => if a = 0x1000 then some ⟨0x1000, 0x90⟩ else none⟩

def c7O : RunOracle := ⟨fun _ => .runExited 7, fun t => .runStopped 5 t⟩

/-- **C7.** During the step-over of a just-hit breakpoint inside `cont`, if
the single-step yields termination (exit or death by signal) instead of a
stop, that termination status is returned immediately: the breakpoint map is
untouched (no trap-byte re-install happens) and the result does not depend on
the external-continue behaviour of the oracle at all, for any oracle with
that single-step outcome. -/
theorem cont_step_termination_immediate (o : RunOracle) (inf : Inferior)
    (t0 : TraceeState) (hproc : inf.proc = some t0)
    (hbp : (inf.break_map (t0.rip - 1)).isSome = true) :
    (∀ c, o.stepRun t0 = .runExited c →
      Inferior.cont o inf = (.ok (.exited c), { inf with proc := none })) ∧
    (∀ s, o.stepRun t0 = .runSignaled s →
      Inferior.cont o inf = (.ok (.signaled s), { inf with proc := none })) := by
  constructor <;> intro x hx <;> unfold Inferior.cont <;> rw [hproc] <;>
    simp [hbp, hx]

theorem cont_step_termination_immediate_witness :
    Inferior.cont c7O c7Inf = (.ok (.exited 7), { c7Inf with proc := none }) :=
  (cont_step_termination_immediate c7O c7Inf c7T rfl (by decide)).1 7 rfl

/-! ## Fold lemmas for `Inferior::new`'s breakpoint-installation loop -/

/-- Installing a breakpoint at `b` preserves "trap byte present and address
recorded" at any address `a`. -/
theorem add_breakpoint_preserves_installed (inf : Inferior) (t : TraceeState)
    (a b : Nat) (hproc : inf.proc = some t) (ha : a < U64_MOD) (hb : b < U64_MOD)
    (hmem : memByte t.mem a = 0xcc) (hmap : ((inf.break_map a).isSome = true)) :
    ∃ t1, (inf.add_breakpoint b).2.proc = some t1 ∧ memByte t1.mem a = 0xcc ∧
      (((inf.add_breakpoint b).2.break_map a).isSome = true) := by
  obtain ⟨t1, h1, _, _, hset, hother, _⟩ :=
    write_byte_mem_spec inf t b 0xcc hproc hb (by norm_num)
  refine ⟨t1, h1, ?_, ?_⟩
  · by_cases hab : a = b
    · subst hab
      exact hset
    · rw [hother a ha hab]
      exact hmem
  · unfold Inferior.add_breakpoint
    rw [write_byte_alive inf t b 0xcc hproc]
    by_cases hab : a = b
    · simp [hab]
    · simp [hab, hmap]

/-- The installation fold preserves an already-installed breakpoint. -/
theorem fold_preserves_installed (bps : List Nat) (inf : Inferior) (t : TraceeState)
    (a : Nat) (hproc : inf.proc = some t) (ha : a < U64_MOD)
    (hbps : ∀ x ∈ bps, x < U64_MOD)
    (hmem : memByte t.mem a = 0xcc) (hmap : ((inf.break_map a).isSome = true)) :
    ∃ t', (bps.foldl (fun i x => (i.add_breakpoint x).2) inf).proc = some t' ∧
      memByte t'.mem a = 0xcc ∧
      (((bps.foldl (fun i x => (i.add_breakpoint x).2) inf).break_map a).isSome = true) := by
  induction bps generalizing inf t with
  | nil => exact ⟨t, hproc, hmem, hmap⟩
  | cons b rest ih =>
    obtain ⟨t1, h1, h2, h3⟩ := add_breakpoint_preserves_installed inf t a b hproc ha
      (hbps b (by simp)) hmem hmap
    simp only [List.foldl_cons]
    exact ih _ _ h1 (fun x hx => hbps x (by simp [hx])) h2 h3

/-- The installation fold establishes the trap byte and map record at every
address of the list. -/
theorem fold_installs_all (bps : List Nat) (inf : Inferior) (t : TraceeState)
    (hproc : inf.proc = some t) (hbps : ∀ a ∈ bps, a < U64_MOD) :
    ∃ t', (bps.foldl (fun i x => (i.add_breakpoint x).2) inf).proc = some t' ∧
      ∀ a ∈ bps, memByte t'.mem a = 0xcc ∧
        (((bps.foldl (fun i x => (i.add_breakpoint x).2) inf).break_map a).isSome = true) := by
  induction bps generalizing inf t with
  | nil => exact ⟨t, hproc, by simp⟩
  | cons b rest ih =>
    have hb : b < U64_MOD := hbps b (by simp)
    have hrest : ∀ x ∈ rest, x < U64_MOD := fun x hx => hbps x (by simp [hx])
    obtain ⟨t1, h1, _, _, hset, _, _⟩ :=
      write_byte_mem_spec inf t b 0xcc hproc hb (by norm_num)
    have h1' : (inf.add_breakpoint b).2.proc = some t1 := h1
    have hmap1 : (((inf.add_breakpoint b).2.break_map b).isSome = true) := by
      unfold Inferior.add_breakpoint
      rw [write_byte_alive inf t b 0xcc hproc]
      simp
    obtain ⟨t', hp', hall⟩ := ih _ _ h1' hrest
    obtain ⟨t'', hp'', hm'', hmap''⟩ :=
      fold_preserves_installed rest _ t1 b h1' hb hrest hset hmap1
    simp only [List.foldl_cons]
    have ht : t'' = t' := by
      rw [hp'] at hp''
      exact (Option.some_injective _ hp'').symm
    refine ⟨t', hp', ?_⟩
    intro a hma
    rcases List.mem_cons.mp hma with hab | har
    · subst hab
      exact ⟨ht ▸ hm'', hmap''⟩
    · exact hall a har

/-- **C8.** `Inferior::new` returns no instance when the spawn fails or when
the initial wait does not report a stopped state, without retrying; on
success every address in the supplied breakpoint set has been installed into
the new process (trap byte written, address recorded) before it returns. -/
theorem inferior_new_spec (t : TraceeState) (bps : List Nat) (sig : Nat)
    (hbps : ∀ a ∈ bps, a < U64_MOD) :
    (∀ iw, Inferior.new .spawnFail iw bps = none) ∧
    (Inferior.new (.spawnOk t) .wsOther bps = none) ∧
    (Inferior.new (.spawnOk t) .wsErr bps = none) ∧
    ∃ inf t', Inferior.new (.spawnOk t) (.wsStopped sig) bps = some inf ∧
      inf.proc = some t' ∧
      ∀ a ∈ bps, memByte t'.mem a = 0xcc ∧ ((inf.break_map a).isSome = true) := by
  refine ⟨fun _ => rfl, rfl, rfl, ?_⟩
  obtain ⟨t', hp, hall⟩ := fold_installs_all bps ⟨some t, fun _ => none⟩ t rfl hbps
  exact ⟨_, t', rfl, hp, hall⟩

theorem inferior_new_spec_witness :
    (∀ iw, Inferior.new .spawnFail iw [0x1000, 0x2005] = none) ∧
    (Inferior.new (.spawnOk c4T) .wsOther [0x1000, 0x2005] = none) ∧
    (Inferior.new (.spawnOk c4T) .wsErr [0x1000, 0x2005] = none) ∧
    ∃ inf t', Inferior.new (.spawnOk c4T) (.wsStopped 5) [0x1000, 0x2005] = some inf ∧
      inf.proc = some t' ∧
      ∀ a ∈ [0x1000, 0x2005], memByte t'.mem a = 0xcc ∧
        ((inf.break_map a).isSome = true) :=
  inferior_new_spec c4T [0x1000, 0x2005] 5 (by decide)

/-- C9 concrete test data: a symbol table resolving every address to the
entry function. -/
def c9dd : DwarfData := ⟨fun _ => some ⟨"hello.c", 3⟩, fun _ => some "main"⟩

def c9T : TraceeState := ⟨fun _ => 0, 0x401000, 0x7ff0⟩

def c9Inf : Inferior := ⟨some c9T, fun _ => none⟩

/-- **C9.** Stack unwinding resolves the current instruction pointer via the
symbol collaborator and stops after (and including) the frame whose resolved
function name is the entry function name; otherwise it continues with the
return address read at frame-pointer + one word and the saved frame pointer
read at frame-pointer + zero. In particular, for a process stopped at its
entry function, backtrace yields exactly one frame, named by the entry
function. -/
theorem backtrace_spec (inf : Inferior) (t : TraceeState) (dd : DwarfData)
    (fuel : Nat) (hproc : inf.proc = some t) :
    (∀ line, dd.get_line_from_addr t.rip = some line →
      dd.get_function_from_addr t.rip = some entryFunctionName →
      inf.print_backtrace dd (fuel + 1) =
        some [⟨entryFunctionName, line.file, line.number⟩]) ∧
    (∀ line f, dd.get_line_from_addr t.rip = some line →
      dd.get_function_from_addr t.rip = some f → f ≠ entryFunctionName →
      inf.print_backtrace dd (fuel + 1) =
        (backtraceFrames dd t.mem fuel (t.mem (t.rbp + 8)) (t.mem t.rbp)).map
          fun rest => ⟨f, line.file, line.number⟩ :: rest) := by
  unfold Inferior.print_backtrace
  rw [hproc]
  constructor
  · intro line h1 h2
    simp only [backtraceFrames]
    rw [h1, h2]
    simp
  · intro line f h1 h2 hf
    simp only [backtraceFrames]
    rw [h1, h2]
    simp [hf]

theorem backtrace_spec_witness :
    c9Inf.print_backtrace c9dd 1 = some [⟨"main", "hello.c", 3⟩] :=
  (backtrace_spec c9Inf c9T c9dd 0 rfl).1 ⟨"hello.c", 3⟩ rfl rfl

/-! ## The continue state machine: C1, C2, C3 -/

/-- C1 concrete test data: a breakpoint installed at `0x1000`, and an
external continue that stops the child with `rip = 0x1001`, one byte past
the breakpoint. -/
def c1T0 : TraceeState := ⟨fun _ => 0xcc, 0x400000, 0x7000⟩

def c1Inf : Inferior :=
  ⟨some c1T0, fun a => if a = 0x1000 then some ⟨0x1000, 0x90⟩ else none⟩

def c1O : RunOracle :=
  ⟨fun t => .runStopped 5 t, fun t => .runStopped 5 { t with rip := 0x1001 }⟩

/-- **C1 counterexample.** A `cont` that stops exactly one byte past the
installed breakpoint `0x1000` returns the stop reason with instruction
pointer `0x1001` — the pre-rewind value — not `0x1000` as the claim
states. -/
theorem cont_reports_unrewound_rip_counterexample :
    ((Inferior.cont c1O c1Inf).1 = .ok (.stopped 5 0x1001)) ∧
    ¬ ((Inferior.cont c1O c1Inf).1 = .ok (.stopped 5 0x1000)) := by
  constructor
  · rfl
  · intro h
    rw [show (Inferior.cont c1O c1Inf).1 = Except.ok (Status.stopped 5 0x1001) from rfl] at h
    simp only [Except.ok.injEq, Status.stopped.injEq] at h
    omega

/-- **C1 amended.** When a `cont` stops exactly one byte past an installed
breakpoint `a = rip' - 1` (and the pre-resume step-over branch was not
taken), the trap byte at the breakpoint address is restored to the original
byte and the instruction-pointer register is rewound to `a` — but the stop
reason returned to the caller still carries the pre-rewind pointer `a + 1`:
the reported value does not reflect the rewritten state. -/
theorem cont_breakpoint_rewinds_but_reports_raw (o : RunOracle) (inf : Inferior)
    (t0 t' : TraceeState) (sig : Nat) (bp : Breakpoint)
    (hproc : inf.proc = some t0)
    (hpre : inf.break_map (t0.rip - 1) = none)
    (hrun : o.contRun t0 = .runStopped sig t')
    (hbp : inf.break_map (t'.rip - 1) = some bp)
    (haddr : bp.addr < U64_MOD) (hbyte : bp.orig_byte < 256) :
    ∃ inf' t'', Inferior.cont o inf = (.ok (.stopped sig t'.rip), inf') ∧
      inf'.proc = some t'' ∧ t''.rip = t'.rip - 1 ∧
      memByte t''.mem bp.addr = bp.orig_byte := by
  unfold Inferior.cont
  rw [hproc]
  simp only [hpre, Option.isSome_none, Bool.false_eq_true, if_false]
  unfold Inferior.contResume
  rw [hproc]
  simp only [hrun]
  unfold Inferior.contPost
  dsimp only
  simp only [hbp]
  rw [write_byte_alive _ t' bp.addr bp.orig_byte rfl]
  refine ⟨_, _, rfl, rfl, rfl, ?_⟩
  unfold memByte
  rw [writeWord_mem_self]
  exact extract_patch_byte_self _ _ _ (byte_offset_lt bp.addr haddr) hbyte

theorem cont_breakpoint_rewinds_but_reports_raw_witness :
    ∃ inf' t'', Inferior.cont c1O c1Inf = (.ok (.stopped 5 0x1001), inf') ∧
      inf'.proc = some t'' ∧ t''.rip = 0x1000 ∧
      memByte t''.mem 0x1000 = 0x90 :=
  cont_breakpoint_rewinds_but_reports_raw c1O c1Inf c1T0
    { c1T0 with rip := 0x1001 } 5 ⟨0x1000, 0x90⟩ rfl rfl rfl rfl
    (by norm_num [U64_MOD]) (by norm_num)

/-- C2 concrete test data: a breakpoint installed at `0x1000` (trap byte in
memory, original byte `0x90` recorded), a first continue that traps there,
and a second continue on which the child runs to normal exit. -/
def c2T0 : TraceeState := ⟨fun _ => 0xcc, 0x400000, 0x7000⟩

def c2Inf0 : Inferior :=
  ⟨some c2T0, fun a => if a = 0x1000 then some ⟨0x1000, 0x90⟩ else none⟩

def c2o1 : RunOracle :=
  ⟨fun t => .runStopped 5 t, fun t => .runStopped 5 { t with rip := 0x1001 }⟩

def c2o2 : RunOracle := ⟨fun t => .runStopped 5 t, fun _ => .runExited 0⟩

/-- **C2.** (Failing behaviour, evaluated on the code.) After a continue
stops at the installed breakpoint `0x1000` — original byte restored,
`rip` rewound to `0x1000` — the subsequent continue does NOT re-arm the trap
byte: its step-over branch tests `rip - 1 = 0xfff`, which is not in the
breakpoint map, so the external resume is issued directly (`cont` reduces to
`contResume` on the unmodified state, whose byte at `0x1000` is still the
original `0x90`), and the child runs to termination without re-trapping at
`0x1000`. -/
theorem cont_after_breakpoint_stop_does_not_rearm :
    ∃ t1, (Inferior.cont c2o1 c2Inf0).2.proc = some t1 ∧
      t1.rip = 0x1000 ∧
      memByte t1.mem 0x1000 = 0x90 ∧
      (((Inferior.cont c2o1 c2Inf0).2.break_map (0x1000 - 1)).isSome = false) ∧
      Inferior.cont c2o2 (Inferior.cont c2o1 c2Inf0).2 =
        Inferior.contResume c2o2 (Inferior.cont c2o1 c2Inf0).2 ∧
      (Inferior.cont c2o2 (Inferior.cont c2o1 c2Inf0).2).1 = .error .eSRCH ∧
      (Inferior.cont c2o2 (Inferior.cont c2o1 c2Inf0).2).2.proc = none := by
  exact ⟨_, rfl, rfl, by decide, by decide, rfl, rfl, rfl⟩

/-- C3 concrete test data: a live child with no breakpoint ever hit, and a
continue on which the child exits normally with status 42. -/
def c3T : TraceeState := ⟨fun _ => 0x90, 0x400000, 0x7000⟩

def c3Inf : Inferior := ⟨some c3T, fun _ => none⟩

def c3d0 : DebuggerS := ⟨some c3Inf, []⟩

def c3O : RunOracle := ⟨fun t => .runStopped 5 t, fun _ => .runExited 42⟩

/-- **C3.** (Failing behaviour, evaluated on the code.) When the traced child
exits normally without hitting a breakpoint, `Inferior::cont` calls
`ptrace::getregs` after the wait, which fails on the dead child, so the
Continue command reports an error — not `exited(42)` — the session keeps its
`Inferior` (it does not return to the NoProcess state), and a following
Continue again attempts a trace primitive and reports an error instead of
"not running". -/
theorem cont_exit_reported_as_error :
    ((DebuggerS.cont c3O c3d0).1 = .reportError .eSRCH) ∧
    ¬ ((DebuggerS.cont c3O c3d0).1 = .reportExited 42) ∧
    ((DebuggerS.cont c3O c3d0).2.inferior.isSome = true) ∧
    ((DebuggerS.cont c3O (DebuggerS.cont c3O c3d0).2).1 = .reportError .eSRCH) ∧
    ¬ ((DebuggerS.cont c3O (DebuggerS.cont c3O c3d0).2).1 = .reportNotRunning) := by
  exact ⟨rfl, by decide, rfl, rfl, by decide⟩

end Deet
